import Mathlib

/-!
Verification of the decision-tree inference and learning engine of the
Hollow Knight Akinator program (`hollow_akinator_gui_blur.py`).

The Python tree is a nested dict with either keys `q`/`yes`/`no`
(question node) or key `guess` (leaf).  Well-formed trees are embedded as
the inductive type `TreeNode`; the game session (`GameState`) carries the
tree, the traversal path and the current node, exactly as the Python
class does.
-/

/-- A well-formed decision-tree node (§3 invariant): either a question
node with two children, or a guess leaf. -/
inductive TreeNode where
  | question (q : String) (yes : TreeNode) (no : TreeNode)
  | guess (name : String)
deriving DecidableEq, Repr

/-- Source `is_leaf`: a node is a leaf iff it carries a `guess` key. -/
def TreeNode.is_leaf : TreeNode → Bool
  | .guess _ => true
  | .question _ _ _ => false

/-- Source `node.get(branch, {})` as used by `GameState.answer`: on a
question node returns the `yes` child when the branch string is `"yes"`
and the `no` child otherwise.  `answer` only calls it on non-leaf nodes
(Python would return `{}` on a leaf); the leaf case returns the node
itself and is unreachable along traced paths. -/
def TreeNode.get : TreeNode → String → TreeNode
  | .question _ y n, branch => if branch = "yes" then y else n
  | t, _ => t

/-- Number of nodes in a tree. -/
def TreeNode.size : TreeNode → Nat
  | .guess _ => 1
  | .question _ y n => 1 + y.size + n.size

/-- Number of guess leaves in a tree. -/
def TreeNode.leafCount : TreeNode → Nat
  | .guess _ => 1
  | .question _ y n => y.leafCount + n.leafCount

/-- Number of question nodes in a tree. -/
def TreeNode.questionCount : TreeNode → Nat
  | .guess _ => 0
  | .question _ y n => 1 + y.questionCount + n.questionCount

/-- Source `normalize_question`, on the character list underlying the
string: `q.strip()` drops whitespace at both ends, then `"?"` is
appended unless the stripped text already ends with `"?"`. -/
def stripChars (l : List Char) : List Char :=
  ((l.dropWhile Char.isWhitespace).reverse.dropWhile Char.isWhitespace).reverse

/-- Source `normalize_question`: strip surrounding whitespace and append
a trailing question mark when the stripped text does not already end in
one. -/
def normalize_question (q : String) : String :=
  let t := stripChars q.data
  if t.getLast? = some '?' then ⟨t⟩ else ⟨t ++ ['?']⟩

/-- Source `default_tree`: the built-in seed knowledge base. -/
def default_tree : TreeNode :=
  .question "¿Es un jefe o te enfrentas a él/ella en combate principal?"
    (.question "¿Es una entidad divina o regente del Reino?"
      (.question "¿Está asociada directamente a la luz y los sueños?"
        (.guess "Radiancia")
        (.guess "Rey Pálido"))
      (.question "¿Se presenta en plural o en equipo durante el combate?"
        (.guess "Señores Mantis")
        (.question "¿Usa una aguja e hilo en combate?"
          (.guess "Hornet")
          (.question "¿Lidera una troupe y es teatral?"
            (.guess "Grimm")
            (.question "¿Es un recipiente silencioso sellado?"
              (.guess "Hollow Knight")
              (.guess "Nosk"))))))
    (.question "¿Es cartógrafo y tararea mientras hace mapas?"
      (.guess "Cornifer")
      (.question "¿Es fanfarrón y presume 57 preceptos?"
        (.guess "Zote el Poderoso")
        (.question "¿Es un artista y maestro del aguijón retirado?"
          (.guess "Maestro del Aguijón Sheo")
          (.question "¿Es aventurera con gran armadura?"
            (.guess "Cloth")
            (.question "¿Es un explorador amable con casco azul?"
              (.guess "Quirrel")
              (.question "¿Es una joven romántica que admira a Zote?"
                (.guess "Bretta")
                (.question "¿Busca gloria en el coliseo y tiene un destino trágico?"
                  (.guess "Tiso")
                  (.guess "El Caballero"))))))))

/-- Source class `GameState`: the knowledge tree, the traversal path of
`(visited node, branch taken)` pairs, and the current node. -/
structure GameState where
  tree : TreeNode
  path : List (TreeNode × String)
  node : TreeNode
deriving DecidableEq, Repr

/-- Source `GameState.__init__`: start at the root with an empty path. -/
def GameState.init (t : TreeNode) : GameState := ⟨t, [], t⟩

/-- Source `GameState.restart`: clear the path and return to the root. -/
def GameState.restart (s : GameState) : GameState :=
  { s with path := [], node := s.tree }

/-- Source `GameState.answer`: no-op on a leaf; otherwise the branch is
`"yes"` exactly when the answer string equals `"yes"` (anything else is
treated as `"no"`), the pair `(current node, branch)` is appended to the
path and the current node advances to that child. -/
def GameState.answer (s : GameState) (ans : String) : GameState :=
  if s.node.is_leaf then s
  else
    let branch := if ans = "yes" then "yes" else "no"
    { s with path := s.path ++ [(s.node, branch)], node := s.node.get branch }

/-- The new question node built by `GameState.learn` (source lines
155-159): question text `normalize_question(new_question)`; if the new
answer is yes for the true name, `yes` is the true name and `no` the old
guess, otherwise the reverse. -/
def learn_new_node (true_name old_guess new_question : String)
    (answer_yes_for_new : Bool) : TreeNode :=
  .question (normalize_question new_question)
    (if answer_yes_for_new then .guess true_name else .guess old_guess)
    (if answer_yes_for_new then .guess old_guess else .guess true_name)

/-- Source `parent[side] = new_node` (line 165): the parent question
node with its `side` child replaced.  The path never records leaves, so
the leaf case is unreachable and returns the node unchanged. -/
def setChild : TreeNode → String → TreeNode → TreeNode
  | .question q y n, side, c =>
      if side = "yes" then .question q c n else .question q y c
  | t, _, _ => t

/-- The subtree of `t` reached by following the given branch strings
from the root (a leaf absorbs any remaining branches; traced paths never
reach that case). -/
def subtreeAt : TreeNode → List String → TreeNode
  | t, [] => t
  | t, b :: r => subtreeAt (t.get b) r

/-- `t` with the subtree at the given branch position replaced by `c`.
This renders the effect on `self.tree` of mutating a sub-dict that is
aliased inside the tree at that position. -/
def replaceAt : TreeNode → List String → TreeNode → TreeNode
  | _, [], c => c
  | .question q y n, b :: r, c =>
      if b = "yes" then .question q (replaceAt y r c) n
      else .question q y (replaceAt n r c)
  | t, _ :: _, _ => t

/-- Source `GameState.learn`: no-op unless the current node is a leaf;
otherwise build `learn_new_node` and splice it into the tree.  With an
empty path the new node becomes the whole tree.  Otherwise the Python
statement `parent[side] = new_node` mutates the dict `path[-1][0]`,
which in any session driven through `answer` is the sub-dict of
`self.tree` reached by the first `len(path)-1` recorded branches; the
functional rendering replaces the subtree at that position with the
updated parent.  The final `save_tree` call is persistence only and does
not change the in-memory state. -/
def GameState.learn (s : GameState) (true_name new_question : String)
    (answer_yes_for_new : Bool) : GameState :=
  match s.node with
  | .question _ _ _ => s
  | .guess old_guess =>
    let new_node := learn_new_node true_name old_guess new_question answer_yes_for_new
    match s.path.getLast? with
    | none => { s with tree := new_node, node := new_node }
    | some (parent, side) =>
        { s with
          tree := replaceAt s.tree (s.path.dropLast.map Prod.snd)
                    (setChild parent side new_node),
          node := new_node }

/-- The recorded path traces the tree from its root down to the current
node: each recorded pair holds the node reached so far (a question
node), and following its branch continues the trace.  Every state
reachable through `GameState.init`, `answer`, `restart` satisfies
this. -/
def tracesB : TreeNode → List (TreeNode × String) → TreeNode → Bool
  | t, [], cur => decide (cur = t)
  | t, (p, b) :: rest, cur =>
      decide (p = t) && !t.is_leaf && tracesB (t.get b) rest cur

/-- Every node along the branch list (excluding the final position) is a
question node, so `subtreeAt`/`replaceAt` never get stuck on a leaf. -/
def validB : TreeNode → List String → Bool
  | _, [] => true
  | t, b :: r => !t.is_leaf && validB (t.get b) r

/-- Run a list of answers from a state (folding `GameState.answer`). -/
def runAnswers (s : GameState) (l : List String) : GameState :=
  l.foldl GameState.answer s

example : (runAnswers (GameState.init default_tree) ["yes","yes","yes"]).node = .guess "Radiancia" := by decide

example : (runAnswers (GameState.init default_tree) ["no","no","no","no","no","no","no","no","no"]).node = .guess "El Caballero" := by decide

/-- C9: `restart()` empties the traversal path, resets the current node
to the tree root, and leaves the tree itself unchanged. -/
theorem restart_resets_session (s : GameState) :
    (s.restart).path = [] ∧ (s.restart).node = s.tree ∧ (s.restart).tree = s.tree := by
  simp [GameState.restart]

/-- C2: from the root of the default tree, answering yes, yes, yes
reaches the leaf guessing Radiancia, and answering no nine consecutive
times reaches the leaf guessing El Caballero. -/
theorem default_tree_answer_paths :
    (runAnswers (GameState.init default_tree) ["yes", "yes", "yes"]).node
      = .guess "Radiancia" ∧
    (runAnswers (GameState.init default_tree)
        ["no", "no", "no", "no", "no", "no", "no", "no", "no"]).node
      = .guess "El Caballero" := by
  decide

/-- C4: with a choice in the declared set, `answer` is a no-op in
Guessing state (path, node and tree unchanged), and in Asking state it
appends `(current node, choice)` to the path and advances the current
node to the chosen child. -/
theorem answer_state_machine (s : GameState) (c : String)
    (hc : c = "yes" ∨ c = "no") :
    (s.node.is_leaf = true → s.answer c = s) ∧
    (s.node.is_leaf = false →
      (s.answer c).path = s.path ++ [(s.node, c)] ∧
      (s.answer c).node = s.node.get c ∧
      (s.answer c).tree = s.tree ∧
      ∀ q y n, s.node = .question q y n →
        (s.answer c).node = if c = "yes" then y else n) := by
  constructor
  · intro h
    simp [GameState.answer, h]
  · intro h
    rcases hc with rfl | rfl
    · refine ⟨by simp [GameState.answer, h], by simp [GameState.answer, h], by simp [GameState.answer, h], ?_⟩
      intro q y n hn
      simp [GameState.answer, h, hn, TreeNode.get, TreeNode.is_leaf]
    · refine ⟨by simp [GameState.answer, h], by simp [GameState.answer, h], by simp [GameState.answer, h], ?_⟩
      intro q y n hn
      simp [GameState.answer, h, hn, TreeNode.get, TreeNode.is_leaf]

theorem answer_state_machine_witness :
    ((("yes" : String) = "yes" ∨ ("yes" : String) = "no") ∧
      (GameState.init (.question "¿r?" (.guess "A") (.guess "B"))).node.is_leaf = false) ∧
    (((GameState.init (.question "¿r?" (.guess "A") (.guess "B"))).node.is_leaf = true →
        (GameState.init (.question "¿r?" (.guess "A") (.guess "B"))).answer "yes"
          = GameState.init (.question "¿r?" (.guess "A") (.guess "B"))) ∧
      ((GameState.init (.question "¿r?" (.guess "A") (.guess "B"))).node.is_leaf = false →
        ((GameState.init (.question "¿r?" (.guess "A") (.guess "B"))).answer "yes").path
            = (GameState.init (.question "¿r?" (.guess "A") (.guess "B"))).path
              ++ [((GameState.init (.question "¿r?" (.guess "A") (.guess "B"))).node, "yes")] ∧
        ((GameState.init (.question "¿r?" (.guess "A") (.guess "B"))).answer "yes").node
            = (GameState.init (.question "¿r?" (.guess "A") (.guess "B"))).node.get "yes" ∧
        ((GameState.init (.question "¿r?" (.guess "A") (.guess "B"))).answer "yes").tree
            = (GameState.init (.question "¿r?" (.guess "A") (.guess "B"))).tree ∧
        ∀ q y n, (GameState.init (.question "¿r?" (.guess "A") (.guess "B"))).node = .question q y n →
          ((GameState.init (.question "¿r?" (.guess "A") (.guess "B"))).answer "yes").node
            = if ("yes" : String) = "yes" then y else n)) :=
  ⟨⟨Or.inl rfl, by decide⟩,
    answer_state_machine (GameState.init (.question "¿r?" (.guess "A") (.guess "B"))) "yes" (Or.inl rfl)⟩

/-- C10: in Asking state, any choice string other than exactly "yes" is
treated as "no": the same state results as `answer "no"`, the pair
`(current node, "no")` is recorded and the session advances to the no
child. -/
theorem answer_other_strings_take_no (s : GameState) (c : String)
    (hc : ¬ c = "yes") (hq : s.node.is_leaf = false) :
    s.answer c = s.answer "no" ∧
    (s.answer c).path = s.path ++ [(s.node, "no")] ∧
    (s.answer c).node = s.node.get "no" ∧
    (s.answer c).tree = s.tree := by
  refine ⟨?_, ?_, ?_, ?_⟩ <;> simp [GameState.answer, hq, hc]

theorem answer_other_strings_take_no_witness :
    (¬ ("maybe" : String) = "yes") ∧
    (GameState.init (.question "¿r?" (.guess "A") (.guess "B"))).node.is_leaf = false ∧
    ((GameState.init (.question "¿r?" (.guess "A") (.guess "B"))).answer "maybe"
        = (GameState.init (.question "¿r?" (.guess "A") (.guess "B"))).answer "no" ∧
      ((GameState.init (.question "¿r?" (.guess "A") (.guess "B"))).answer "maybe").path
        = (GameState.init (.question "¿r?" (.guess "A") (.guess "B"))).path
          ++ [((GameState.init (.question "¿r?" (.guess "A") (.guess "B"))).node, "no")] ∧
      ((GameState.init (.question "¿r?" (.guess "A") (.guess "B"))).answer "maybe").node
        = (GameState.init (.question "¿r?" (.guess "A") (.guess "B"))).node.get "no" ∧
      ((GameState.init (.question "¿r?" (.guess "A") (.guess "B"))).answer "maybe").tree
        = (GameState.init (.question "¿r?" (.guess "A") (.guess "B"))).tree) :=
  ⟨by decide, by decide,
    answer_other_strings_take_no (GameState.init (.question "¿r?" (.guess "A") (.guess "B")))
      "maybe" (by decide) (by decide)⟩

lemma head?_dropWhile_false {α : Type} (p : α → Bool) (l : List α) (a : α)
    (h : (l.dropWhile p).head? = some a) : p a = false := by
  induction l with
  | nil => simp [List.dropWhile] at h
  | cons x xs ih =>
    rw [List.dropWhile_cons] at h
    by_cases hx : p x = true
    · rw [if_pos hx] at h; exact ih h
    · rw [if_neg hx] at h
      simp only [List.head?_cons, Option.some.injEq] at h
      subst h
      exact Bool.not_eq_true _ |>.mp hx

lemma getLast?_dropWhile {α : Type} (p : α → Bool) (l : List α)
    (h : l.dropWhile p ≠ []) : (l.dropWhile p).getLast? = l.getLast? := by
  induction l with
  | nil => simp [List.dropWhile] at h
  | cons x xs ih =>
    rw [List.dropWhile_cons] at h ⊢
    by_cases hx : p x = true
    · rw [if_pos hx] at h ⊢
      have hxs : xs ≠ [] := by
        intro hnil; rw [hnil] at h; simp [List.dropWhile] at h
      obtain ⟨y, ys, rfl⟩ := List.exists_cons_of_ne_nil hxs
      rw [ih h, List.getLast?_cons_cons]
    · rw [if_neg hx]

lemma dropWhile_eq_self_of_head {α : Type} (p : α → Bool) (l : List α)
    (h : ∀ a, l.head? = some a → p a = false) : l.dropWhile p = l := by
  cases l with
  | nil => rfl
  | cons x xs =>
    rw [List.dropWhile_cons, if_neg]
    rw [h x rfl]
    simp

lemma stripChars_eq_self (l : List Char)
    (h1 : ∀ a, l.head? = some a → a.isWhitespace = false)
    (h2 : ∀ a, l.getLast? = some a → a.isWhitespace = false) :
    stripChars l = l := by
  unfold stripChars
  rw [dropWhile_eq_self_of_head _ _ h1]
  rw [dropWhile_eq_self_of_head _ _ (by intro a ha; exact h2 a ((List.head?_reverse l) ▸ ha))]
  exact List.reverse_reverse l

lemma stripChars_head (l : List Char) (a : Char)
    (h : (stripChars l).head? = some a) : a.isWhitespace = false := by
  unfold stripChars at h
  rw [List.head?_reverse] at h
  have hne : (l.dropWhile Char.isWhitespace).reverse.dropWhile Char.isWhitespace ≠ [] := by
    intro hnil; rw [hnil] at h; simp at h
  rw [getLast?_dropWhile _ _ hne, List.getLast?_reverse] at h
  exact head?_dropWhile_false _ _ _ h

lemma stripChars_getLast (l : List Char) (a : Char)
    (h : (stripChars l).getLast? = some a) : a.isWhitespace = false := by
  unfold stripChars at h
  rw [List.getLast?_reverse] at h
  exact head?_dropWhile_false _ _ _ h

lemma normalize_question_idem (s : String) :
    normalize_question (normalize_question s) = normalize_question s := by
  unfold normalize_question
  by_cases hq : (stripChars s.data).getLast? = some '?'
  · rw [if_pos hq]
    have hself : stripChars (stripChars s.data) = stripChars s.data := by
      refine stripChars_eq_self _ (fun a ha => stripChars_head _ _ ha) ?_
      intro a ha
      rw [hq] at ha
      cases ha
      decide
    simp only [hself, hq, if_pos]
  · rw [if_neg hq]
    have hself : stripChars (stripChars s.data ++ ['?']) = stripChars s.data ++ ['?'] := by
      refine stripChars_eq_self _ ?_ ?_
      · intro a ha
        cases hd : stripChars s.data with
        | nil =>
          rw [hd] at ha
          simp at ha
          subst ha
          decide
        | cons c cs =>
          rw [hd] at ha
          simp at ha
          subst ha
          exact stripChars_head s.data c (by rw [hd]; rfl)
      · intro a ha
        rw [List.getLast?_concat] at ha
        cases ha
        decide
    simp only [hself, List.getLast?_concat, if_pos]

/-- C5: `normalize_question` strips surrounding whitespace and appends a
trailing question mark exactly when the stripped text does not already
end with one; the two spec examples hold and the function is
idempotent. -/
theorem normalize_question_spec :
    normalize_question "abc" = "abc?" ∧
    normalize_question " abc? " = "abc?" ∧
    (∀ s : String, (normalize_question s).data =
      if (stripChars s.data).getLast? = some '?' then stripChars s.data
      else stripChars s.data ++ ['?']) ∧
    ∀ s : String, normalize_question (normalize_question s) = normalize_question s := by
  refine ⟨by decide, by decide, ?_, normalize_question_idem⟩
  intro s
  unfold normalize_question
  by_cases hq : (stripChars s.data).getLast? = some '?'
  · rw [if_pos hq, if_pos hq]
  · rw [if_neg hq, if_neg hq]

/-- Source statistics dictionary: counters `played`, `wins`, `learned`
(`load_stats` default is all zeros). -/
structure Stats where
  played : Nat
  wins : Nat
  learned : Nat
deriving DecidableEq, Repr

/-- Source `App.on_button`, correct-guess branch (lines 319-322):
`played` and `wins` each increase by one. -/
def statsOnWin (st : Stats) : Stats :=
  { st with played := st.played + 1, wins := st.wins + 1 }

/-- Source `App.learn_dialog` (lines 348-349): `played` increases by one
and `learned` becomes `stats.get("learned", 0) + 1`; `wins` is not
touched. -/
def statsOnLearn (st : Stats) : Stats :=
  { st with played := st.played + 1, learned := st.learned + 1 }

/-- Source `App._update_status` / `App.show_stats` (line 377): accuracy
is `wins / played * 100` when `played` is nonzero and `0.0` otherwise
(exact rational arithmetic stands in for Python float arithmetic). -/
def accuracy (st : Stats) : ℚ :=
  if st.played = 0 then 0 else (st.wins : ℚ) / (st.played : ℚ) * 100

/-- A terminal outcome of a playthrough: a correct guess or a learning
event. -/
inductive Outcome where
  | win
  | learn
deriving DecidableEq, Repr

/-- The statistics update performed at a terminal outcome. -/
def applyOutcome (st : Stats) : Outcome → Stats
  | .win => statsOnWin st
  | .learn => statsOnLearn st

/-- Source `load_stats` bootstrap: all counters start at zero. -/
def zeroStats : Stats := ⟨0, 0, 0⟩

/-- Statistics after a sequence of terminal outcomes, starting from
zeroed counters. -/
def runOutcomes (l : List Outcome) : Stats :=
  l.foldl applyOutcome zeroStats

lemma runOutcomes_go (l : List Outcome) (st : Stats) :
    (l.foldl applyOutcome st).played
        = st.played + l.count .win + l.count .learn ∧
    (l.foldl applyOutcome st).wins = st.wins + l.count .win ∧
    (l.foldl applyOutcome st).learned = st.learned + l.count .learn := by
  induction l generalizing st with
  | nil => simp
  | cons o rest ih =>
    cases o with
    | win =>
      obtain ⟨ih1, ih2, ih3⟩ := ih (statsOnWin st)
      have hc1 : (Outcome.win :: rest).count Outcome.win = rest.count Outcome.win + 1 := by
        simp [List.count_cons]
      have hc2 : (Outcome.win :: rest).count Outcome.learn = rest.count Outcome.learn := by
        simp [List.count_cons]
      have hf : (Outcome.win :: rest).foldl applyOutcome st
          = rest.foldl applyOutcome (statsOnWin st) := rfl
      refine ⟨?_, ?_, ?_⟩
      · rw [hc1, hc2, hf, ih1]; simp [statsOnWin]; omega
      · rw [hc1, hf, ih2]; simp [statsOnWin]; omega
      · rw [hc2, hf, ih3]; simp [statsOnWin]
    | learn =>
      obtain ⟨ih1, ih2, ih3⟩ := ih (statsOnLearn st)
      have hc1 : (Outcome.learn :: rest).count Outcome.win = rest.count Outcome.win := by
        simp [List.count_cons]
      have hc2 : (Outcome.learn :: rest).count Outcome.learn = rest.count Outcome.learn + 1 := by
        simp [List.count_cons]
      have hf : (Outcome.learn :: rest).foldl applyOutcome st
          = rest.foldl applyOutcome (statsOnLearn st) := rfl
      refine ⟨?_, ?_, ?_⟩
      · rw [hc1, hc2, hf, ih1]; simp [statsOnLearn]; omega
      · rw [hc1, hf, ih2]; simp [statsOnLearn]
      · rw [hc2, hf, ih3]; simp [statsOnLearn]; omega

/-- C3: starting from zeroed statistics, after any sequence of terminal
outcomes with N correct guesses and M learning events, `played = N + M`,
`wins = N`, `learned = M`; each win increments `played` and `wins` by
one, each learning event increments `played` and `learned` by one and
never touches `wins`; and the derived accuracy is `wins / played * 100`
when `played > 0` and `0` when `played = 0`. -/
theorem stats_counters (l : List Outcome) :
    (runOutcomes l).played = l.count .win + l.count .learn ∧
    (runOutcomes l).wins = l.count .win ∧
    (runOutcomes l).learned = l.count .learn ∧
    (∀ st : Stats, (statsOnWin st).played = st.played + 1 ∧
      (statsOnWin st).wins = st.wins + 1 ∧
      (statsOnWin st).learned = st.learned ∧
      (statsOnLearn st).played = st.played + 1 ∧
      (statsOnLearn st).learned = st.learned + 1 ∧
      (statsOnLearn st).wins = st.wins) ∧
    accuracy (runOutcomes l) =
      (if l.count .win + l.count .learn = 0 then 0
       else ((l.count .win : ℚ) / ((l.count .win + l.count .learn : Nat) : ℚ)) * 100) := by
  obtain ⟨h1, h2, h3⟩ := runOutcomes_go l zeroStats
  have hp : (runOutcomes l).played = l.count .win + l.count .learn := by
    simpa [runOutcomes, zeroStats] using h1
  have hw : (runOutcomes l).wins = l.count .win := by
    simpa [runOutcomes, zeroStats] using h2
  have hl : (runOutcomes l).learned = l.count .learn := by
    simpa [runOutcomes, zeroStats] using h3
  refine ⟨hp, hw, hl, fun st => ⟨rfl, rfl, rfl, rfl, rfl, rfl⟩, ?_⟩
  unfold accuracy
  rw [hp, hw]

lemma tracesB_subtreeAt (p : List (TreeNode × String)) (t cur : TreeNode)
    (h : tracesB t p cur = true) : subtreeAt t (p.map Prod.snd) = cur := by
  induction p generalizing t with
  | nil =>
    simp [tracesB] at h
    simp [subtreeAt, h]
  | cons e rest ih =>
    obtain ⟨pe, be⟩ := e
    simp only [tracesB, Bool.and_eq_true, decide_eq_true_eq] at h
    obtain ⟨⟨h1, h2⟩, h3⟩ := h
    simpa [subtreeAt] using ih _ h3

lemma tracesB_validB (p : List (TreeNode × String)) (t cur : TreeNode)
    (h : tracesB t p cur = true) : validB t (p.map Prod.snd) = true := by
  induction p generalizing t with
  | nil => simp [validB]
  | cons e rest ih =>
    obtain ⟨pe, be⟩ := e
    simp only [tracesB, Bool.and_eq_true, decide_eq_true_eq] at h
    obtain ⟨⟨h1, h2⟩, h3⟩ := h
    simp only [List.map_cons, validB, Bool.and_eq_true]
    exact ⟨h2, ih _ h3⟩

lemma tracesB_concat (init : List (TreeNode × String)) (p t cur : TreeNode) (b : String)
    (h : tracesB t (init ++ [(p, b)]) cur = true) :
    subtreeAt t (init.map Prod.snd) = p ∧ p.is_leaf = false ∧ p.get b = cur := by
  induction init generalizing t with
  | nil =>
    simp only [List.nil_append, tracesB, Bool.and_eq_true, decide_eq_true_eq] at h
    obtain ⟨⟨h1, h2⟩, h3⟩ := h
    subst h1
    exact ⟨rfl, by simpa using h2, h3.symm⟩
  | cons e rest ih =>
    obtain ⟨pe, be⟩ := e
    simp only [List.cons_append, tracesB, Bool.and_eq_true, decide_eq_true_eq] at h
    obtain ⟨⟨h1, h2⟩, h3⟩ := h
    simpa [subtreeAt] using ih _ h3

lemma replaceAt_concat (bs : List String) (b : String) (t c : TreeNode) :
    replaceAt t (bs ++ [b]) c = replaceAt t bs (setChild (subtreeAt t bs) b c) := by
  induction bs generalizing t with
  | nil =>
    cases t with
    | question q y n => simp [replaceAt, setChild, subtreeAt]
    | guess g => simp [replaceAt, setChild, subtreeAt]
  | cons b0 r ih =>
    cases t with
    | question q y n =>
      by_cases hb : b0 = "yes" <;>
        simp [replaceAt, subtreeAt, TreeNode.get, hb, ih]
    | guess g => simp [replaceAt]

lemma subtreeAt_replaceAt (bs : List String) (t c : TreeNode)
    (hv : validB t bs = true) : subtreeAt (replaceAt t bs c) bs = c := by
  induction bs generalizing t with
  | nil => simp [replaceAt, subtreeAt]
  | cons b r ih =>
    cases t with
    | question q y n =>
      simp only [validB, Bool.and_eq_true] at hv
      by_cases hb : b = "yes" <;>
        simp_all [replaceAt, subtreeAt, TreeNode.get, TreeNode.is_leaf]
    | guess g => simp [validB, TreeNode.is_leaf] at hv

lemma measure_replaceAt (m : TreeNode → Nat) (k : Nat)
    (hm : ∀ q y n, m (.question q y n) = k + m y + m n)
    (bs : List String) (t c : TreeNode) (hv : validB t bs = true) :
    m (replaceAt t bs c) + m (subtreeAt t bs) = m t + m c := by
  induction bs generalizing t with
  | nil => simp [replaceAt, subtreeAt]; omega
  | cons b r ih =>
    cases t with
    | question q y n =>
      simp only [validB, Bool.and_eq_true] at hv
      by_cases hb : b = "yes"
      · have := ih y (by simpa [TreeNode.get, hb] using hv.2)
        simp [replaceAt, subtreeAt, TreeNode.get, hb, hm] at *
        omega
      · have := ih n (by simpa [TreeNode.get, hb] using hv.2)
        simp [replaceAt, subtreeAt, TreeNode.get, hb, hm] at *
        omega
    | guess g => simp [validB, TreeNode.is_leaf] at hv

/-- C1: in Guessing state (current node a leaf guessing `old_guess`)
with a path traced from the root, `learn` builds a question node with
text `normalize_question(new_question)` whose yes/no children are the
leaves for the true name and the old guess (swapped when the flag is
false); with an empty path the new node becomes the whole tree, and
otherwise the tree is rewritten exactly at `parent[branch]` for the last
path entry `(parent, branch)`; one leaf is thereby replaced by one
question node plus two leaves (node count +2, leaf count +1, question
count +1) and the old guessed name survives as a sibling leaf. -/
theorem learn_replaces_leaf (s : GameState) (true_name new_question : String)
    (flag : Bool) (old_guess : String)
    (hleaf : s.node = .guess old_guess)
    (htr : tracesB s.tree s.path s.node = true) :
    (s.learn true_name new_question flag).node
        = learn_new_node true_name old_guess new_question flag ∧
    (s.learn true_name new_question flag).path = s.path ∧
    learn_new_node true_name old_guess new_question flag
        = .question (normalize_question new_question)
            (if flag then .guess true_name else .guess old_guess)
            (if flag then .guess old_guess else .guess true_name) ∧
    (s.path = [] → (s.learn true_name new_question flag).tree
        = learn_new_node true_name old_guess new_question flag) ∧
    (∀ init p b, s.path = init ++ [(p, b)] →
      p = subtreeAt s.tree (init.map Prod.snd) ∧
      (s.learn true_name new_question flag).tree
        = replaceAt s.tree (init.map Prod.snd)
            (setChild p b (learn_new_node true_name old_guess new_question flag))) ∧
    subtreeAt (s.learn true_name new_question flag).tree (s.path.map Prod.snd)
        = learn_new_node true_name old_guess new_question flag ∧
    (s.learn true_name new_question flag).tree.size = s.tree.size + 2 ∧
    (s.learn true_name new_question flag).tree.leafCount = s.tree.leafCount + 1 ∧
    (s.learn true_name new_question flag).tree.questionCount
        = s.tree.questionCount + 1 := by
  obtain ⟨tr, pa, nd⟩ := s
  dsimp only at hleaf htr ⊢
  subst hleaf
  have hnnsize : (learn_new_node true_name old_guess new_question flag).size = 3 := by
    cases flag <;> rfl
  have hnnleaf : (learn_new_node true_name old_guess new_question flag).leafCount = 2 := by
    cases flag <;> rfl
  have hnnq : (learn_new_node true_name old_guess new_question flag).questionCount = 1 := by
    cases flag <;> rfl
  rcases List.eq_nil_or_concat' pa with rfl | ⟨init, ⟨p, b⟩, rfl⟩
  · simp only [tracesB, decide_eq_true_eq] at htr
    subst htr
    refine ⟨rfl, rfl, rfl, fun _ => rfl, ?_, rfl, ?_, ?_, ?_⟩
    · intro init p b h
      exact absurd h (by simp)
    · cases flag <;> rfl
    · cases flag <;> rfl
    · cases flag <;> rfl
  · have hL : GameState.learn ⟨tr, init ++ [(p, b)], .guess old_guess⟩
        true_name new_question flag
        = ⟨replaceAt tr (init.map Prod.snd)
              (setChild p b (learn_new_node true_name old_guess new_question flag)),
            init ++ [(p, b)],
            learn_new_node true_name old_guess new_question flag⟩ := by
      simp [GameState.learn, List.getLast?_concat, List.dropLast_concat]
    obtain ⟨hsub, hpl, hpg⟩ := tracesB_concat init p tr (.guess old_guess) b htr
    have hv := tracesB_validB _ tr (.guess old_guess) htr
    have hmap : (init ++ [(p, b)]).map Prod.snd = init.map Prod.snd ++ [b] := by simp
    rw [hmap] at hv
    have hfull : replaceAt tr (init.map Prod.snd ++ [b])
          (learn_new_node true_name old_guess new_question flag)
        = replaceAt tr (init.map Prod.snd)
            (setChild p b (learn_new_node true_name old_guess new_question flag)) := by
      rw [replaceAt_concat, hsub]
    have hcur : subtreeAt tr (init.map Prod.snd ++ [b]) = .guess old_guess := by
      have := tracesB_subtreeAt (init ++ [(p, b)]) tr (.guess old_guess) htr
      rwa [hmap] at this
    refine ⟨by rw [hL], by rw [hL], rfl, ?_, ?_, ?_, ?_, ?_, ?_⟩
    · intro h
      exact absurd h (by simp)
    · intro init' p' b' h
      have hdl : init = init' := by
        have := congrArg List.dropLast h
        simpa [List.dropLast_concat] using this
      have hgl : p = p' ∧ b = b' := by
        have := congrArg List.getLast? h
        simpa [List.getLast?_concat] using this
      obtain ⟨rfl, rfl⟩ := hgl
      subst hdl
      exact ⟨hsub.symm, by rw [hL]⟩
    · rw [hL]
      dsimp only
      rw [hmap, ← hfull]
      exact subtreeAt_replaceAt _ _ _ hv
    · have hsz := measure_replaceAt TreeNode.size 1 (fun _ _ _ => rfl)
        (init.map Prod.snd ++ [b]) tr
        (learn_new_node true_name old_guess new_question flag) hv
      rw [hcur, hnnsize] at hsz
      rw [hL]
      dsimp only
      rw [← hfull]
      have : (TreeNode.guess old_guess).size = 1 := rfl
      omega
    · have hsz := measure_replaceAt TreeNode.leafCount 0
        (fun q y n => by simp [TreeNode.leafCount])
        (init.map Prod.snd ++ [b]) tr
        (learn_new_node true_name old_guess new_question flag) hv
      rw [hcur, hnnleaf] at hsz
      rw [hL]
      dsimp only
      rw [← hfull]
      have : (TreeNode.guess old_guess).leafCount = 1 := rfl
      omega
    · have hsz := measure_replaceAt TreeNode.questionCount 1
        (fun _ _ _ => rfl)
        (init.map Prod.snd ++ [b]) tr
        (learn_new_node true_name old_guess new_question flag) hv
      rw [hcur, hnnq] at hsz
      rw [hL]
      dsimp only
      rw [← hfull]
      have : (TreeNode.guess old_guess).questionCount = 0 := rfl
      omega

theorem learn_replaces_leaf_witness :
    ((⟨.question "¿r?" (.guess "A") (.guess "B"),
        [(.question "¿r?" (.guess "A") (.guess "B"), "yes")],
        .guess "A"⟩ : GameState).node = .guess "A" ∧
      tracesB (⟨.question "¿r?" (.guess "A") (.guess "B"),
          [(.question "¿r?" (.guess "A") (.guess "B"), "yes")],
          .guess "A"⟩ : GameState).tree
        (⟨.question "¿r?" (.guess "A") (.guess "B"),
          [(.question "¿r?" (.guess "A") (.guess "B"), "yes")],
          .guess "A"⟩ : GameState).path
        (⟨.question "¿r?" (.guess "A") (.guess "B"),
          [(.question "¿r?" (.guess "A") (.guess "B"), "yes")],
          .guess "A"⟩ : GameState).node = true) ∧
    (((⟨.question "¿r?" (.guess "A") (.guess "B"),
        [(.question "¿r?" (.guess "A") (.guess "B"), "yes")],
        .guess "A"⟩ : GameState).learn "C" "nq" true).node
        = learn_new_node "C" "A" "nq" true ∧
      ((⟨.question "¿r?" (.guess "A") (.guess "B"),
        [(.question "¿r?" (.guess "A") (.guess "B"), "yes")],
        .guess "A"⟩ : GameState).learn "C" "nq" true).path
        = (⟨.question "¿r?" (.guess "A") (.guess "B"),
            [(.question "¿r?" (.guess "A") (.guess "B"), "yes")],
            .guess "A"⟩ : GameState).path ∧
      learn_new_node "C" "A" "nq" true
        = .question (normalize_question "nq")
            (if true then .guess "C" else .guess "A")
            (if true then .guess "A" else .guess "C") ∧
      ((⟨.question "¿r?" (.guess "A") (.guess "B"),
          [(.question "¿r?" (.guess "A") (.guess "B"), "yes")],
          .guess "A"⟩ : GameState).path = [] →
        ((⟨.question "¿r?" (.guess "A") (.guess "B"),
          [(.question "¿r?" (.guess "A") (.guess "B"), "yes")],
          .guess "A"⟩ : GameState).learn "C" "nq" true).tree
          = learn_new_node "C" "A" "nq" true) ∧
      (∀ init p b,
        (⟨.question "¿r?" (.guess "A") (.guess "B"),
          [(.question "¿r?" (.guess "A") (.guess "B"), "yes")],
          .guess "A"⟩ : GameState).path = init ++ [(p, b)] →
        p = subtreeAt (⟨.question "¿r?" (.guess "A") (.guess "B"),
              [(.question "¿r?" (.guess "A") (.guess "B"), "yes")],
              .guess "A"⟩ : GameState).tree (init.map Prod.snd) ∧
        ((⟨.question "¿r?" (.guess "A") (.guess "B"),
            [(.question "¿r?" (.guess "A") (.guess "B"), "yes")],
            .guess "A"⟩ : GameState).learn "C" "nq" true).tree
          = replaceAt (⟨.question "¿r?" (.guess "A") (.guess "B"),
                [(.question "¿r?" (.guess "A") (.guess "B"), "yes")],
                .guess "A"⟩ : GameState).tree (init.map Prod.snd)
              (setChild p b (learn_new_node "C" "A" "nq" true))) ∧
      subtreeAt ((⟨.question "¿r?" (.guess "A") (.guess "B"),
            [(.question "¿r?" (.guess "A") (.guess "B"), "yes")],
            .guess "A"⟩ : GameState).learn "C" "nq" true).tree
          ((⟨.question "¿r?" (.guess "A") (.guess "B"),
            [(.question "¿r?" (.guess "A") (.guess "B"), "yes")],
            .guess "A"⟩ : GameState).path.map Prod.snd)
        = learn_new_node "C" "A" "nq" true ∧
      ((⟨.question "¿r?" (.guess "A") (.guess "B"),
          [(.question "¿r?" (.guess "A") (.guess "B"), "yes")],
          .guess "A"⟩ : GameState).learn "C" "nq" true).tree.size
        = (⟨.question "¿r?" (.guess "A") (.guess "B"),
            [(.question "¿r?" (.guess "A") (.guess "B"), "yes")],
            .guess "A"⟩ : GameState).tree.size + 2 ∧
      ((⟨.question "¿r?" (.guess "A") (.guess "B"),
          [(.question "¿r?" (.guess "A") (.guess "B"), "yes")],
          .guess "A"⟩ : GameState).learn "C" "nq" true).tree.leafCount
        = (⟨.question "¿r?" (.guess "A") (.guess "B"),
            [(.question "¿r?" (.guess "A") (.guess "B"), "yes")],
            .guess "A"⟩ : GameState).tree.leafCount + 1 ∧
      ((⟨.question "¿r?" (.guess "A") (.guess "B"),
          [(.question "¿r?" (.guess "A") (.guess "B"), "yes")],
          .guess "A"⟩ : GameState).learn "C" "nq" true).tree.questionCount
        = (⟨.question "¿r?" (.guess "A") (.guess "B"),
            [(.question "¿r?" (.guess "A") (.guess "B"), "yes")],
            .guess "A"⟩ : GameState).tree.questionCount + 1) :=
  ⟨⟨rfl, by decide⟩,
    learn_replaces_leaf
      ⟨.question "¿r?" (.guess "A") (.guess "B"),
        [(.question "¿r?" (.guess "A") (.guess "B"), "yes")],
        .guess "A"⟩ "C" "nq" true "A" rfl (by decide)⟩

/-- A structured document as produced by the external json library: the
shape of the persisted knowledge file (§6). -/
inductive Doc where
  | null
  | boolean (b : Bool)
  | num (n : Int)
  | str (s : String)
  | arr (items : List Doc)
  | obj (fields : List (String × Doc))

/-- Modelled from the spec: the document `save_tree` writes through
`json.dump` — the tree serialized with the stable key names `q`, `yes`,
`no`, `guess` (§6); file handling and indentation are external to the
core. -/
def save_tree (t : TreeNode) : Doc :=
  match t with
  | .question q y n => .obj [("q", .str q), ("yes", save_tree y), ("no", save_tree n)]
  | .guess g => .obj [("guess", .str g)]

/-- Modelled from the spec: reading a persisted document back as a
well-formed TreeNode per §3/§6 (the source's `load_tree` defers the
parse to the external `json.load`). -/
def load_tree : Doc → Option TreeNode
  | .obj [("guess", .str g)] => some (.guess g)
  | .obj [("q", .str q), ("yes", y), ("no", n)] =>
    match load_tree y, load_tree n with
    | some ty, some tn => some (.question q ty tn)
    | _, _ => none
  | _ => none

/-- C6: saving any well-formed tree and loading it back yields a tree
structurally equal to the original. -/
theorem load_tree_save_tree_round_trip (t : TreeNode) :
    load_tree (save_tree t) = some t := by
  induction t with
  | question q y n ihy ihn => simp [save_tree, load_tree, ihy, ihn]
  | guess g => simp [save_tree, load_tree]

/-- Python `"k" in new_tree` on the document root: true only for an
object document one of whose fields is named `k`. -/
def hasRootKey (d : Doc) (k : String) : Bool :=
  match d with
  | .obj fields => fields.any fun f => f.1 = k
  | _ => false

/-- The error raised by `App.import_tree` on a malformed document
(`ValueError("El archivo no parece un árbol de decisiones válido.")`). -/
inductive ImportError where
  | invalidFormat
deriving DecidableEq, Repr

/-- The application state touched by `App.import_tree`: the active
in-memory tree (`self.state.tree`) and the persisted tree file
(`save_tree`).  Both hold raw documents, since import accepts any
document passing its root check. -/
structure AppModel where
  active_tree : Doc
  saved_tree : Doc

/-- Source `App.import_tree` (lines 413-420): the read document must be
a dict containing a `q` or a `guess` key at the root, otherwise a
`ValueError` is raised inside the `try` block — before `self.state.tree`
is assigned or `save_tree` is called, so on error the previous state is
returned untouched. -/
def App.import_tree (app : AppModel) (new_tree : Doc) :
    AppModel × Option ImportError :=
  if hasRootKey new_tree "q" || hasRootKey new_tree "guess" then
    (⟨new_tree, new_tree⟩, none)
  else
    (app, some .invalidFormat)

/-- C7: importing a document whose root lacks both a `q` key and a
`guess` key fails with the invalid-format error and leaves both the
active in-memory tree and the persisted tree unchanged. -/
theorem import_tree_rejects_invalid (app : AppModel) (d : Doc)
    (hq : hasRootKey d "q" = false) (hg : hasRootKey d "guess" = false) :
    App.import_tree app d = (app, some ImportError.invalidFormat) := by
  simp [App.import_tree, hq, hg]

theorem import_tree_rejects_invalid_witness :
    (hasRootKey (.obj [("foo", .str "bar")]) "q" = false ∧
      hasRootKey (.obj [("foo", .str "bar")]) "guess" = false) ∧
    App.import_tree ⟨.obj [("guess", .str "Hornet")], .obj [("guess", .str "Hornet")]⟩
        (.obj [("foo", .str "bar")])
      = (⟨.obj [("guess", .str "Hornet")], .obj [("guess", .str "Hornet")]⟩,
          some ImportError.invalidFormat) :=
  ⟨⟨by decide, by decide⟩,
    import_tree_rejects_invalid
      ⟨.obj [("guess", .str "Hornet")], .obj [("guess", .str "Hornet")]⟩
      (.obj [("foo", .str "bar")]) (by decide) (by decide)⟩

/-- Modelled from the spec: the character content `json.dump` writes for
a tree (stable key names per §6; exact whitespace and indentation are
immaterial here). -/
def serialize : TreeNode → String
  | .guess g => "\x7b\"guess\": \"" ++ g ++ "\"\x7d"
  | .question q y n =>
      "\x7b\"q\": \"" ++ q ++ "\", \"yes\": " ++ serialize y
        ++ ", \"no\": " ++ serialize n ++ "\x7d"

/-- A primitive step of the file write done by the source `save_tree`
(line 100): `open(DATA_FILE, "w")` truncates the file in place
immediately, then `json.dump` writes the serialized content into it. -/
inductive FileOp where
  | openTruncate
  | write (s : String)
deriving DecidableEq, Repr

/-- The sequence of file operations the source `save_tree` performs:
truncate-on-open, then write the serialized tree.  There is no
write-then-rename or other atomicity mechanism in the source. -/
def save_tree_ops (t : TreeNode) : List FileOp :=
  [.openTruncate, .write (serialize t)]

/-- Effect of one file operation on the persisted file content (`none` =
file absent). -/
def applyFileOp : Option String → FileOp → Option String
  | _, .openTruncate => some ""
  | some c, .write s => some (c ++ s)
  | none, .write s => some s

/-- File content after running a list of file operations. -/
def runFileOps (f : Option String) (ops : List FileOp) : Option String :=
  ops.foldl applyFileOp f

/-- Every file content observable if the process crashes after any
prefix of the operations. -/
def crashStates (f : Option String) (ops : List FileOp) : List (Option String) :=
  (List.range (ops.length + 1)).map fun k => runFileOps f (ops.take k)

/-- C8 (failing evidence): with a previously persisted tree on disk,
`save_tree` passes through a crash state in which the file is truncated
to empty — neither the old nor the new fully-written content, both of
which are nonempty.  The claimed write-then-rename atomicity is absent
from the code. -/
theorem save_tree_truncation_window :
    crashStates (some (serialize (.guess "Zote el Poderoso")))
        (save_tree_ops (.guess "Hornet"))
      = [some (serialize (.guess "Zote el Poderoso")), some "",
          some (serialize (.guess "Hornet"))] ∧
    (serialize (.guess "Hornet") == "") = false ∧
    (serialize (.guess "Zote el Poderoso") == "") = false := by
  refine ⟨by decide, by decide, by decide⟩
